import Mathlib

/-!
gdichk: the pregap / null-data writer (`sp/write.c`) and the reader (`sp/read.c`)

A shallow embedding of `write_null`, `write_sector`, `write_pregap` and `main` of the writer
and of `read_hex` of the reader.

Modelling conventions
* A file is the list of its bytes (`List Nat`, every byte below 256); a file that does not
  exist yet is the empty list.
* A C `int` is an `Int`; the width is 32 bits, and an increment that leaves the range wraps
  around two's-complement fashion (`wrap_int`).  `size_t` is 64 bits wide.
* The answers of the C library the code branches on (`fopen`, `calloc`) are read from an
  `Env`.  `fwrite` and `fclose` always succeed: the code never looks at their results.
* A call either returns or ends the process through `exit`; both are an `Outcome`, which also
  carries the bytes of the target file at that moment.  For the reader a `ReadOutcome` carries
  what went to the standard output and to the error stream, for `main` a `Run` the exit status,
  the error stream and the file.
* `printf ("%x")` and `atoi` belong to the C library: the first is the list of lowercase
  hexadecimal digits of the value, the second a parameter of `main`.
-/

namespace Gdichk

/-! ## Machine integers -/

/-- Conversion of an `int` to `unsigned char`: reduction modulo 256. -/
def to_uchar (x : Int) : Nat := (x % 256).toNat

/-- Conversion of an `int` to `size_t` (64 bits): reduction modulo 2^64. -/
def to_size_t (x : Int) : Nat := (x % 18446744073709551616).toNat

/-- The largest `int`. -/
def INT_MAX : Int := 2147483647

/-- Reduction of a mathematical integer to the 32-bit two's-complement range. -/
def wrap_int (x : Int) : Int := (x + 2147483648) % 4294967296 - 2147483648

/-- The status `exit (EXIT_FAILURE)` hands to the system. -/
def EXIT_FAILURE : Int := 1

/-! ## Environment and outcomes -/

/-- The answers of the C library that the writer branches on. -/
structure Env where
  /-- Whether `fopen (path, "wb")` in `write_null` yields a stream. -/
  fopen_wb : Bool
  /-- Whether `calloc (n, 1)` yields a non-null pointer. -/
  calloc : Nat → Bool
  /-- Whether `fopen (path, "ab")` in the `i`-th `write_sector` of a pregap yields a stream. -/
  fopen_ab : Nat → Bool

/-- How a call ends, together with the bytes the target file then holds. -/
inductive Outcome where
  | returned (value : Int) (file : List Nat)
  | exited (status : Int) (file : List Nat)
deriving DecidableEq, Repr

/-- The bytes of the target file when the call is over. -/
def Outcome.file : Outcome → List Nat
  | .returned _ fl => fl
  | .exited _ fl => fl

/-- `fwrite (buf, 1, n, file)` on a stream positioned at the end: the first `n` bytes of the
buffer are added after what the file holds. -/
def fwrite (buf : List Nat) (n : Nat) (file : List Nat) : List Nat := file ++ buf.take n

/-! ## `write_null` -/

/-- The loop `for (int i = 0 ; i < size ; i++) { null[i] = 0 ; }`, with `k` iterations left. -/
def null_loop : Nat → Nat → List Nat → List Nat
  | 0, _, null => null
  | k + 1, i, null => null_loop k (i + 1) (null.set i 0)

/-- `write_null (path, size)`; `file` is what the target holds before the call. -/
def write_null (env : Env) (file : List Nat) (size : Int) : Outcome :=
  if env.fopen_wb = false then .exited EXIT_FAILURE file
  else
    -- mode "wb" creates the file or cuts it to length zero
    let file : List Nat := []
    if env.calloc (to_size_t size) = false then .exited EXIT_FAILURE file
    else
      let null := List.replicate (to_size_t size) 0
      let null := null_loop size.toNat 0 null
      let file := fwrite null (to_size_t size) file
      .returned 0 file

/-! ## `write_sector` -/

/-- The twelve bytes of `sync`. -/
def sync : List Nat := [0, 255, 255, 255, 255, 255, 255, 255, 255, 255, 255, 0]

/-- The byte `((unsigned char) d / 10) * 16 + (d % 10)` stored in an `unsigned char`: the cast
binds to `d` alone, `/` and `%` truncate, and the sum is reduced modulo 256 by the store. -/
def bcd_byte (d : Int) : Nat :=
  to_uchar (Int.tdiv (to_uchar d : Int) 10 * 16 + Int.tmod d 10)

/-- `write_sector (path, bcd_min, bcd_sec, bcd_fra)`; `opened` is whether
`fopen (path, "ab")` yields a stream, `file` what the target holds before the call. -/
def write_sector (opened : Bool) (file : List Nat) (bcd_min bcd_sec bcd_fra : Int) : Outcome :=
  if opened = false then .exited EXIT_FAILURE file
  else
    -- sync
    let file := fwrite sync 12 file
    -- time
    let min := bcd_byte bcd_min
    let file := fwrite [min] 1 file
    let sec := bcd_byte bcd_sec
    let file := fwrite [sec] 1 file
    let fra := bcd_byte bcd_fra
    let file := fwrite [fra] 1 file
    -- mode
    let mode := 1
    let file := fwrite [mode] 1 file
    -- data
    let data := List.replicate 2336 0
    let file := fwrite data 2336 file
    .returned 0 file

/-! ## `write_pregap` -/

/-- The three `int` variables `bcd_min`, `bcd_sec`, `bcd_fra` of `write_pregap`. -/
structure Timecode where
  bcd_min : Int
  bcd_sec : Int
  bcd_fra : Int
deriving DecidableEq, Repr

/-- The frame-advance step, lines 92-95 of `write_pregap`:
`bcd_fra += 1 ; if (bcd_fra > 74) { bcd_fra = 0 ; bcd_sec += 1 ; }`
`if (bcd_sec > 59) { bcd_sec = 0 ; bcd_min += 1 ; }`. -/
def frame_advance (t : Timecode) : Timecode :=
  let t := { t with bcd_fra := wrap_int (t.bcd_fra + 1) }
  let t := if t.bcd_fra > 74 then { t with bcd_fra := 0, bcd_sec := wrap_int (t.bcd_sec + 1) }
    else t
  let t := if t.bcd_sec > 59 then { t with bcd_sec := 0, bcd_min := wrap_int (t.bcd_min + 1) }
    else t
  t

/-- The loop `for (int i = 0 ; i < 150 ; i++)` of `write_pregap` with `k` iterations left,
`i` being the loop counter. -/
def pregap_loop (env : Env) : Nat → Nat → List Nat → Timecode → Outcome
  | 0, _, file, _ => .returned 0 file
  | k + 1, i, file, t =>
    match write_sector (env.fopen_ab i) file t.bcd_min t.bcd_sec t.bcd_fra with
    | .exited status fl => .exited status fl
    | .returned _ fl => pregap_loop env k (i + 1) fl (frame_advance t)

/-- `write_pregap (path, bcd_min, bcd_sec, bcd_fra)`; `file` is what the target holds before
the call. -/
def write_pregap (env : Env) (file : List Nat) (bcd_min bcd_sec bcd_fra : Int) : Outcome :=
  -- null pregap
  match write_null env file 176400 with
  | .exited status fl => .exited status fl
  | .returned _ fl =>
    -- data pregap
    pregap_loop env 150 0 fl ⟨bcd_min, bcd_sec, bcd_fra⟩

/-! ## Auxiliary notions used by the statements -/

/-- An environment in which every library call succeeds. -/
def Env.ok : Env := ⟨true, fun _ => true, fun _ => true⟩

/-- The 2352 bytes of one sector, as one list. -/
def sector_bytes (t : Timecode) : List Nat :=
  sync ++ [bcd_byte t.bcd_min, bcd_byte t.bcd_sec, bcd_byte t.bcd_fra, 1]
    ++ List.replicate 2336 0

/-- The bytes of `k` successive sectors, the first one carrying `t` and each next one the
frame-advanced timecode of the one before. -/
def pregap_sectors : Nat → Timecode → List Nat
  | 0, _ => []
  | k + 1, t => sector_bytes t ++ pregap_sectors k (frame_advance t)

/-- A timecode in the semantic range: minute at least 0, second in [0,59], frame in [0,74]. -/
def Timecode.valid (t : Timecode) : Prop :=
  0 ≤ t.bcd_min ∧ 0 ≤ t.bcd_sec ∧ t.bcd_sec ≤ 59 ∧ 0 ≤ t.bcd_fra ∧ t.bcd_fra ≤ 74

instance (t : Timecode) : Decidable t.valid := by
  unfold Timecode.valid; infer_instance

/-- The absolute frame index of a timecode: 75 frames a second, 60 seconds a minute. -/
def abs_frame (t : Timecode) : Int := 75 * (60 * t.bcd_min + t.bcd_sec) + t.bcd_fra

/-- Unpacking of a packed-BCD byte: ten times the high nibble plus the low nibble. -/
def bcd_unpack (b : Nat) : Nat := 10 * (b / 16) + b % 16

/-- The packing rule in the words of the specification, `(d / 10) * 16 + (d % 10)` with C's
truncating division and remainder, before any reduction to a byte. -/
def bcd_pack_spec (d : Int) : Int := Int.tdiv d 10 * 16 + Int.tmod d 10

/-! ## The writer's `main` -/

/-- The text `show_usage` of the writer sends to the error stream. -/
def usage_text : String :=
  "write [mode] [path] (optional) [mm] [ss] [ff] [size]\n\n" ++
  "mode          -a : audio track pregap\n" ++
  "                   requires path\n" ++
  "              -d : data track pregap\n" ++
  "                   requires path and timing\n" ++
  "              -n : null data\n" ++
  "                   requires path and size\n"

/-- How a run of the writer ends: the exit status of the process, what it sent to the error
stream, and the bytes the target file then holds. -/
structure Run where
  status : Int
  err : String
  file : List Nat
deriving DecidableEq, Repr

/-- The rest of `main` after a call of `write_null` or `write_pregap`: `return 0` when the
call returned (its value is not looked at), the status of `exit` when it ended the process. -/
def Run.after : Outcome → Run
  | .returned _ fl => ⟨0, "", fl⟩
  | .exited status fl => ⟨status, "", fl⟩

/-- `main (argc, argv)` of the writer, with `argc` the length of `argv`; `atoi` is the
conversion of the C library, `file` what the file at `argv[2]` holds before the run. -/
def main (env : Env) (atoi : String → Int) (argv : List String) (file : List Nat) : Run :=
  let argc := argv.length
  if argc < 3 then ⟨1, usage_text, file⟩
  else
    let mode := argv.getD 1 ""
    if mode = "-a" ∧ argc = 3 then
      Run.after (write_null env file 352800)
    else if mode = "-d" ∧ argc = 6 then
      let bcd_min := atoi (argv.getD 3 "")
      let bcd_sec := atoi (argv.getD 4 "")
      let bcd_fra := atoi (argv.getD 5 "")
      Run.after (write_pregap env file bcd_min bcd_sec bcd_fra)
    else if mode = "-n" ∧ argc = 4 then
      let size := atoi (argv.getD 3 "")
      Run.after (write_null env file size)
    else ⟨1, usage_text, file⟩

/-! ## The reader (`sp/read.c`) -/

/-- The conversion `%x` of `printf`: the lowercase hexadecimal digits of the value, without
leading zeros. -/
def fmt_x (n : Nat) : List Char := Nat.toDigits 16 n

/-- What one iteration of the loop of `read_hex` prints:
`if (byte < 16) { printf ("0%x ", byte) ; } else { printf ("%x ", byte) ; }`. -/
def print_byte (byte : Nat) : List Char :=
  if byte < 16 then [(0 : Nat).digitChar] ++ fmt_x byte ++ [' '] else fmt_x byte ++ [' ']

/-- How a call of `read_hex` ends, with what it sent to the standard output and to the error
stream. -/
inductive ReadOutcome where
  | returned (value : Int) (out : List Char)
  | exited (status : Int) (out : List Char) (err : String)
deriving DecidableEq, Repr

/-- The loop `for (int i = 0 ; i < size ; i++)` of `read_hex` with `k` iterations left; `pos`
is the position of the stream and `byte` the variable of that name.  `fread` at or past the
end of the file reads nothing and leaves `byte` and the position as they are. -/
def read_loop (file : List Nat) : Nat → Nat → Nat → List Char
  | 0, _, _ => []
  | k + 1, pos, byte =>
    let byte := (file[pos]?).getD byte
    let pos := if pos < file.length then pos + 1 else pos
    print_byte byte ++ read_loop file k pos byte

/-- `read_hex (path, size, skip)`; `opened` is whether `fopen (path, "rb")` yields a stream,
`file` the bytes of the file.  The sum `size + skip` is an `int`. -/
def read_hex (opened : Bool) (file : List Nat) (size skip : Int) : ReadOutcome :=
  if opened = false then .exited EXIT_FAILURE [] ""
  else
    let file_size : Int := file.length
    if wrap_int (size + skip) > file_size then .exited 2 [] "not enough data to read\n"
    else
      -- fseek (file, skip, SEEK_SET): a negative offset is refused and the stream stays at the end
      let pos := if 0 ≤ skip then skip.toNat else file.length
      let out := read_loop file size.toNat pos 0
      .returned 0 (out ++ ['\n'])

/-- A lowercase hexadecimal digit: `0` to `9`, then `a` to `f`. -/
def hex_digit (d : Nat) : Char := if d < 10 then Char.ofNat (48 + d) else Char.ofNat (87 + d)

/-- The rendering of a byte in the words of the specification: two lowercase hexadecimal
digits, the high one first, then one space. -/
def render_spec (b : Nat) : List Char := [hex_digit (b / 16), hex_digit (b % 16), ' ']

/-- The library answers `NULL` to a request of zero bytes and succeeds otherwise, as the C
standard allows. -/
def Env.null_on_zero : Env := ⟨true, fun n => decide (n ≠ 0), fun _ => true⟩

/-! ## Helper lemmas -/

theorem to_uchar_natCast (n : Nat) : to_uchar (n : Int) = n % 256 := by
  unfold to_uchar; omega

theorem bcd_byte_natCast (n : Nat) :
    bcd_byte (n : Int) = ((n % 256) / 10 * 16 + n % 10) % 256 := by
  unfold bcd_byte
  rw [to_uchar_natCast]
  rw [Int.tdiv_eq_ediv (by omega) (by omega), Int.tmod_eq_emod (by omega) (by omega)]
  unfold to_uchar; omega

theorem bcd_byte_of_le (n : Nat) (h : n ≤ 159) : bcd_byte (n : Int) = 16 * (n / 10) + n % 10 := by
  rw [bcd_byte_natCast]; omega

theorem null_loop_replicate (k i n : Nat) :
    null_loop k i (List.replicate n 0) = List.replicate n 0 := by
  induction k generalizing i with
  | zero => rfl
  | succ k ih => simp [null_loop, ih]

theorem length_sector_bytes (t : Timecode) : (sector_bytes t).length = 2352 := by
  simp only [sector_bytes, sync, List.length_append, List.length_replicate, List.length_cons,
    List.length_nil]

theorem write_sector_opened (file : List Nat) (m s f : Int) :
    write_sector true file m s f = .returned 0 (file ++ sector_bytes ⟨m, s, f⟩) := by
  have h : (List.replicate 2336 0 : List Nat).take 2336 = List.replicate 2336 0 :=
    List.take_of_length_le (le_of_eq (List.length_replicate _ _))
  have h12 : sync.take 12 = sync := rfl
  simp only [write_sector, fwrite, sector_bytes, h, h12, List.take_succ_cons, List.take_zero,
    List.append_assoc, List.cons_append, List.nil_append, if_false, Bool.true_eq_false]

theorem to_size_t_natCast (n : Nat) (h : (n : Int) ≤ INT_MAX) : to_size_t (n : Int) = n := by
  unfold to_size_t; unfold INT_MAX at h; omega

theorem write_null_opened (env : Env) (file : List Nat) (size : Int)
    (hwb : env.fopen_wb = true) (hc : env.calloc (to_size_t size) = true) :
    write_null env file size = .returned 0 (List.replicate (to_size_t size) 0) := by
  have h : (List.replicate (to_size_t size) 0 : List Nat).take (to_size_t size)
      = List.replicate (to_size_t size) 0 :=
    List.take_of_length_le (le_of_eq (List.length_replicate _ _))
  simp only [write_null, fwrite, hwb, hc, null_loop_replicate, h, List.nil_append, if_false,
    Bool.true_eq_false]

theorem length_pregap_sectors (k : Nat) (t : Timecode) :
    (pregap_sectors k t).length = 2352 * k := by
  induction k generalizing t with
  | zero => rfl
  | succ k ih =>
    rw [pregap_sectors, List.length_append, length_sector_bytes, ih]; omega

theorem pregap_sectors_slice (i k : Nat) (t : Timecode) (h : i < k) :
    ((pregap_sectors k t).drop (2352 * i)).take 2352 = sector_bytes (frame_advance^[i] t) := by
  induction i generalizing k t with
  | zero =>
    obtain ⟨k, rfl⟩ : ∃ j, k = j + 1 := ⟨k - 1, by omega⟩
    rw [pregap_sectors, Nat.mul_zero, List.drop_zero]
    exact List.take_left' (length_sector_bytes t)
  | succ i ih =>
    obtain ⟨k, rfl⟩ : ∃ j, k = j + 1 := ⟨k - 1, by omega⟩
    have hlen : 2352 * (i + 1) = (sector_bytes t).length + 2352 * i := by
      rw [length_sector_bytes]; omega
    rw [pregap_sectors, hlen, List.drop_append, Function.iterate_succ_apply]
    exact ih k (frame_advance t) (by omega)

theorem pregap_loop_opened (env : Env) (k i : Nat) (file : List Nat) (t : Timecode)
    (hab : ∀ j, i ≤ j → j < i + k → env.fopen_ab j = true) :
    pregap_loop env k i file t = .returned 0 (file ++ pregap_sectors k t) := by
  induction k generalizing i file t with
  | zero => simp only [pregap_loop, pregap_sectors, List.append_nil]
  | succ k ih =>
    rw [pregap_loop, hab i (Nat.le_refl i) (by omega), write_sector_opened]
    simp only
    rw [ih (i + 1) _ _ (fun j h1 h2 => hab j (by omega) (by omega)), pregap_sectors,
      List.append_assoc]

theorem write_pregap_opened (env : Env) (file : List Nat) (m s f : Int)
    (hwb : env.fopen_wb = true) (hc : env.calloc 176400 = true)
    (hab : ∀ i, i < 150 → env.fopen_ab i = true) :
    write_pregap env file m s f
      = .returned 0 (List.replicate 176400 0 ++ pregap_sectors 150 ⟨m, s, f⟩) := by
  have hsz : to_size_t 176400 = 176400 := by decide
  rw [write_pregap, write_null_opened env file 176400 hwb (by rw [hsz]; exact hc), hsz]
  simp only
  exact pregap_loop_opened env 150 0 _ _ (fun j _ h2 => hab j (by omega))

theorem sector_bytes_eq (t : Timecode) :
    sector_bytes t = [0, 255, 255, 255, 255, 255, 255, 255, 255, 255, 255, 0,
      bcd_byte t.bcd_min, bcd_byte t.bcd_sec, bcd_byte t.bcd_fra, 1]
      ++ List.replicate 2336 0 := rfl

theorem sector_bytes_head (t : Timecode) :
    (sector_bytes t).take 12 = [0, 255, 255, 255, 255, 255, 255, 255, 255, 255, 255, 0] ∧
    (sector_bytes t)[12]? = some (bcd_byte t.bcd_min) ∧
    (sector_bytes t)[13]? = some (bcd_byte t.bcd_sec) ∧
    (sector_bytes t)[14]? = some (bcd_byte t.bcd_fra) ∧
    (sector_bytes t)[15]? = some 1 := by
  rw [sector_bytes_eq]
  generalize List.replicate 2336 0 = data
  refine ⟨rfl, rfl, rfl, rfl, ?_⟩
  simp only [List.cons_append, List.getElem?_cons_succ, List.getElem?_cons_zero]

theorem sector_bytes_data (t : Timecode) (j : Nat) (h1 : 16 ≤ j) (h2 : j < 2352) :
    (sector_bytes t)[j]? = some 0 := by
  rw [sector_bytes_eq, List.getElem?_append_right (by simpa using h1)]
  exact List.getElem?_replicate_of_lt (by simp only [List.length_cons, List.length_nil]; omega)

theorem frame_advance_step (t : Timecode) (hv : t.valid)
    (hm : t.bcd_min < INT_MAX ∨ t.bcd_sec < 59 ∨ t.bcd_fra < 74) :
    (frame_advance t).valid ∧ abs_frame (frame_advance t) = abs_frame t + 1 := by
  obtain ⟨m, s, f⟩ := t
  simp only [Timecode.valid, INT_MAX] at hv hm
  obtain ⟨hm0, hs0, hs1, hf0, hf1⟩ := hv
  have wf : wrap_int (f + 1) = f + 1 := by unfold wrap_int; omega
  have ws : wrap_int (s + 1) = s + 1 := by unfold wrap_int; omega
  unfold frame_advance
  dsimp only
  rw [wf]
  by_cases c1 : f + 1 > 74
  · rw [if_pos c1]
    dsimp only
    rw [ws]
    by_cases c2 : s + 1 > 59
    · have wm : wrap_int (m + 1) = m + 1 := by unfold wrap_int; omega
      rw [if_pos c2]
      simp only [Timecode.valid, abs_frame, wm]
      omega
    · rw [if_neg c2]
      simp only [Timecode.valid, abs_frame]
      omega
  · rw [if_neg c1]
    dsimp only
    rw [if_neg (by omega)]
    simp only [Timecode.valid, abs_frame]
    omega

theorem frame_advance_iterate (t : Timecode) (hv : t.valid) (hm : t.bcd_min < INT_MAX)
    (i : Nat) (hi : i ≤ 4500) :
    (frame_advance^[i] t).valid ∧ abs_frame (frame_advance^[i] t) = abs_frame t + i := by
  induction i with
  | zero => simpa using hv
  | succ i ih =>
    obtain ⟨hvi, hidx⟩ := ih (by omega)
    rw [Function.iterate_succ_apply']
    have hcarry : (frame_advance^[i] t).bcd_min < INT_MAX ∨ (frame_advance^[i] t).bcd_sec < 59
        ∨ (frame_advance^[i] t).bcd_fra < 74 := by
      simp only [Timecode.valid, abs_frame, INT_MAX] at hv hm hvi hidx ⊢
      omega
    obtain ⟨h1, h2⟩ := frame_advance_step _ hvi hcarry
    refine ⟨h1, ?_⟩
    rw [h2, hidx]; push_cast; ring

/-! ## The claims -/

/-- C1: for a valid decimal timecode (minute at most 99, second at most 59, frame at most 74)
the sector `write_sector` appends has at offset 12 the byte `16 * (minute / 10) + minute % 10`,
at 13 the same packing of the second, at 14 that of the frame, at 15 the byte 1, and at every
offset from 16 to 2351 the byte 0. -/
theorem write_sector_timecode_bytes (file : List Nat) (minute second frame : Nat)
    (hm : minute ≤ 99) (hs : second ≤ 59) (hf : frame ≤ 74) :
    ∃ sec, write_sector true file minute second frame = .returned 0 (file ++ sec) ∧
      sec[12]? = some (16 * (minute / 10) + minute % 10) ∧
      sec[13]? = some (16 * (second / 10) + second % 10) ∧
      sec[14]? = some (16 * (frame / 10) + frame % 10) ∧
      sec[15]? = some 1 ∧
      ∀ j, 16 ≤ j → j < 2352 → sec[j]? = some 0 := by
  refine ⟨sector_bytes ⟨minute, second, frame⟩, write_sector_opened _ _ _ _, ?_⟩
  obtain ⟨_, h12, h13, h14, h15⟩ := sector_bytes_head ⟨minute, second, frame⟩
  rw [bcd_byte_of_le minute (by omega)] at h12
  rw [bcd_byte_of_le second (by omega)] at h13
  rw [bcd_byte_of_le frame (by omega)] at h14
  exact ⟨h12, h13, h14, h15, sector_bytes_data _⟩

/-- Witness of C1 at the timecode 99:59:74 appended to a three-byte file. -/
theorem write_sector_timecode_bytes_witness :
    ∃ sec, write_sector true [7, 8, 9] (99 : Nat) (59 : Nat) (74 : Nat)
        = .returned 0 ([7, 8, 9] ++ sec) ∧
      sec[12]? = some (16 * (99 / 10) + 99 % 10) ∧
      sec[13]? = some (16 * (59 / 10) + 59 % 10) ∧
      sec[14]? = some (16 * (74 / 10) + 74 % 10) ∧
      sec[15]? = some 1 ∧
      ∀ j, 16 ≤ j → j < 2352 → sec[j]? = some 0 :=
  write_sector_timecode_bytes [7, 8, 9] 99 59 74 (by decide) (by decide) (by decide)

/-- C2: for every integer triple, valid or not, `write_sector` appends exactly 2352 bytes, of
which the first twelve are 0x00, ten times 0xFF, 0x00, and the one at offset 15 is 1. -/
theorem write_sector_length_sync_mode (file : List Nat) (bcd_min bcd_sec bcd_fra : Int) :
    ∃ sec, write_sector true file bcd_min bcd_sec bcd_fra = .returned 0 (file ++ sec) ∧
      sec.length = 2352 ∧
      sec.take 12 = [0, 255, 255, 255, 255, 255, 255, 255, 255, 255, 255, 0] ∧
      sec[15]? = some 1 :=
  ⟨sector_bytes ⟨bcd_min, bcd_sec, bcd_fra⟩, write_sector_opened _ _ _ _,
    length_sector_bytes _, (sector_bytes_head _).1, (sector_bytes_head _).2.2.2.2⟩

/-- C3: whatever the starting timecode and the prior content of the target, when the library
calls succeed `write_pregap` returns with 150 sectors after the 176400 padding bytes: for every
`i` below 150 the 2352 bytes at offset `176400 + 2352 * i` are what `write_sector` writes for
the origin advanced `i` times, and nothing follows the 150th sector. -/
theorem write_pregap_emits_150_sectors (env : Env) (file : List Nat)
    (bcd_min bcd_sec bcd_fra : Int)
    (hwb : env.fopen_wb = true) (hc : env.calloc 176400 = true)
    (hab : ∀ i, i < 150 → env.fopen_ab i = true) :
    ∃ out, write_pregap env file bcd_min bcd_sec bcd_fra = .returned 0 out ∧
      out.length = 176400 + 150 * 2352 ∧
      ∀ i, i < 150 →
        write_sector true []
            (frame_advance^[i] ⟨bcd_min, bcd_sec, bcd_fra⟩).bcd_min
            (frame_advance^[i] ⟨bcd_min, bcd_sec, bcd_fra⟩).bcd_sec
            (frame_advance^[i] ⟨bcd_min, bcd_sec, bcd_fra⟩).bcd_fra
          = .returned 0 ((out.drop (176400 + 2352 * i)).take 2352) := by
  refine ⟨_, write_pregap_opened env file _ _ _ hwb hc hab, ?_, ?_⟩
  · rw [List.length_append, List.length_replicate, length_pregap_sectors]
  · intro i hi
    have hoff : 176400 + 2352 * i = (List.replicate 176400 (0 : Nat)).length + 2352 * i := by
      rw [List.length_replicate]
    rw [write_sector_opened, List.nil_append, hoff, List.drop_append,
      pregap_sectors_slice i 150 _ hi]

/-- Witness of C3: a pregap from 00:59:74 written over a two-byte file when every library call
succeeds. -/
theorem write_pregap_emits_150_sectors_witness :
    Env.ok.fopen_wb = true ∧ Env.ok.calloc 176400 = true ∧
    (∀ i, i < 150 → Env.ok.fopen_ab i = true) ∧
    ∃ out, write_pregap Env.ok [1, 2] 0 59 74 = .returned 0 out ∧
      out.length = 176400 + 150 * 2352 ∧
      ∀ i, i < 150 →
        write_sector true []
            (frame_advance^[i] ⟨0, 59, 74⟩).bcd_min
            (frame_advance^[i] ⟨0, 59, 74⟩).bcd_sec
            (frame_advance^[i] ⟨0, 59, 74⟩).bcd_fra
          = .returned 0 ((out.drop (176400 + 2352 * i)).take 2352) :=
  ⟨rfl, rfl, fun _ _ => rfl,
    write_pregap_emits_150_sectors Env.ok [1, 2] 0 59 74 rfl rfl (fun _ _ => rfl)⟩

/-- C4: whatever the starting timecode, when the library calls succeed the file `write_pregap`
leaves is 529200 bytes long, its first 176400 bytes are zero, and it is the same file for any
two prior contents of the target. -/
theorem write_pregap_length_padding (env : Env) (file file2 : List Nat)
    (bcd_min bcd_sec bcd_fra : Int)
    (hwb : env.fopen_wb = true) (hc : env.calloc 176400 = true)
    (hab : ∀ i, i < 150 → env.fopen_ab i = true) :
    ∃ out, write_pregap env file bcd_min bcd_sec bcd_fra = .returned 0 out ∧
      out.length = 529200 ∧
      (∀ j, j < 176400 → out[j]? = some 0) ∧
      write_pregap env file2 bcd_min bcd_sec bcd_fra = .returned 0 out := by
  refine ⟨_, write_pregap_opened env file _ _ _ hwb hc hab, ?_, ?_,
    write_pregap_opened env file2 _ _ _ hwb hc hab⟩
  · rw [List.length_append, List.length_replicate, length_pregap_sectors]
  · intro j hj
    rw [List.getElem?_append_left (by rw [List.length_replicate]; exact hj)]
    exact List.getElem?_replicate_of_lt hj

/-- Witness of C4: the pregap from 12:34:56 written over a three-byte file and over no file. -/
theorem write_pregap_length_padding_witness :
    Env.ok.fopen_wb = true ∧ Env.ok.calloc 176400 = true ∧
    (∀ i, i < 150 → Env.ok.fopen_ab i = true) ∧
    ∃ out, write_pregap Env.ok [9, 9, 9] 12 34 56 = .returned 0 out ∧
      out.length = 529200 ∧
      (∀ j, j < 176400 → out[j]? = some 0) ∧
      write_pregap Env.ok [] 12 34 56 = .returned 0 out :=
  ⟨rfl, rfl, fun _ _ => rfl,
    write_pregap_length_padding Env.ok [9, 9, 9] [] 12 34 56 rfl rfl (fun _ _ => rfl)⟩

/-- C5: for a valid timecode whose frame is below 74 one frame-advance step leaves minute and
second as they are and yields frame + 1. -/
theorem frame_advance_no_carry (t : Timecode) (hv : t.valid) (hf : t.bcd_fra < 74) :
    frame_advance t = ⟨t.bcd_min, t.bcd_sec, t.bcd_fra + 1⟩ := by
  obtain ⟨m, s, f⟩ := t
  simp only [Timecode.valid] at hv
  dsimp only at hf ⊢
  have wf : wrap_int (f + 1) = f + 1 := by unfold wrap_int; omega
  unfold frame_advance
  dsimp only
  rw [wf, if_neg (show ¬ f + 1 > 74 by omega)]
  dsimp only
  rw [if_neg (show ¬ s > 59 by omega)]

/-- Witness of C5 at 07:59:73. -/
theorem frame_advance_no_carry_witness :
    (⟨7, 59, 73⟩ : Timecode).valid ∧ (73 : Int) < 74 ∧
    frame_advance ⟨7, 59, 73⟩ = ⟨7, 59, 73 + 1⟩ :=
  ⟨by decide, by decide, frame_advance_no_carry ⟨7, 59, 73⟩ (by decide) (by decide)⟩

/-- C6, the claim as stated fails: 2147483647:59:74 is a valid timecode of frame 74 and second
59, and the step does not yield minute + 1, the minute being the largest `int` already. -/
theorem frame_advance_minute_overflow :
    (⟨2147483647, 59, 74⟩ : Timecode).valid ∧
    frame_advance ⟨2147483647, 59, 74⟩ = ⟨-2147483648, 0, 0⟩ ∧
    (frame_advance ⟨2147483647, 59, 74⟩).bcd_min ≠ 2147483647 + 1 := by
  decide

/-- C6, amended: for a valid timecode of frame 74 one frame-advance step yields frame 0 and,
when the second is below 59, second + 1 with the minute unchanged, and when the second is 59
and the minute is below the largest `int`, second 0 and minute + 1. -/
theorem frame_advance_carry (t : Timecode) (hv : t.valid) (hf : t.bcd_fra = 74)
    (hm : t.bcd_sec = 59 → t.bcd_min < INT_MAX) :
    frame_advance t =
      if t.bcd_sec < 59 then ⟨t.bcd_min, t.bcd_sec + 1, 0⟩ else ⟨t.bcd_min + 1, 0, 0⟩ := by
  obtain ⟨m, s, f⟩ := t
  simp only [Timecode.valid, INT_MAX] at hv hm
  dsimp only at hf ⊢
  subst hf
  have ws : wrap_int (s + 1) = s + 1 := by unfold wrap_int; omega
  unfold frame_advance
  dsimp only
  rw [if_pos (show wrap_int (74 + 1) > 74 by decide)]
  dsimp only
  rw [ws]
  by_cases c : s < 59
  · rw [if_neg (show ¬ s + 1 > 59 by omega), if_pos c]
  · have wm : wrap_int (m + 1) = m + 1 := by unfold wrap_int; omega
    rw [if_pos (show s + 1 > 59 by omega), if_neg c, wm]

/-- Witness of C6 amended, at 07:59:74. -/
theorem frame_advance_carry_witness :
    (⟨7, 59, 74⟩ : Timecode).valid ∧ ((59 : Int) = 59 → (7 : Int) < INT_MAX) ∧
    frame_advance ⟨7, 59, 74⟩ = ⟨7 + 1, 0, 0⟩ :=
  ⟨by decide, fun _ => by decide,
    frame_advance_carry ⟨7, 59, 74⟩ (by decide) rfl (fun _ => by decide)⟩

/-- C7, the claim as stated fails: 2147483647:59:74 is valid and its advanced triple has a
negative minute, so the second sector of the pregap from that origin carries an invalid
timecode. -/
theorem frame_advance_invalid_at_int_max :
    (⟨2147483647, 59, 74⟩ : Timecode).valid ∧
    ¬ (frame_advance ⟨2147483647, 59, 74⟩).valid ∧
    (frame_advance ⟨2147483647, 59, 74⟩).bcd_min < 0 := by
  decide

/-- C7, amended: for every triple with minute at least 0 and below the largest `int`, second
in [0,59] and frame in [0,74], the advanced triple again has minute at least 0, second in
[0,59] and frame in [0,74]; and each of the 150 timecodes encoded during a pregap from such
an origin is valid. -/
theorem frame_advance_preserves_valid (t : Timecode) (hv : t.valid) (hm : t.bcd_min < INT_MAX) :
    (frame_advance t).valid ∧ ∀ i, i < 150 → (frame_advance^[i] t).valid :=
  ⟨(frame_advance_step t hv (Or.inl hm)).1,
    fun i hi => (frame_advance_iterate t hv hm i (by omega)).1⟩

/-- Witness of C7 amended, at 2147483646:59:74, the last minute before the largest `int`. -/
theorem frame_advance_preserves_valid_witness :
    (⟨2147483646, 59, 74⟩ : Timecode).valid ∧ (2147483646 : Int) < INT_MAX ∧
    (frame_advance ⟨2147483646, 59, 74⟩).valid ∧
    ∀ i, i < 150 → (frame_advance^[i] ⟨2147483646, 59, 74⟩).valid :=
  ⟨by decide, by decide,
    frame_advance_preserves_valid ⟨2147483646, 59, 74⟩ (by decide) (by decide)⟩

/-- C8: the byte `write_sector` emits for a component `d` in [0,99] unpacks to `d` again. -/
theorem bcd_unpack_bcd_byte (d : Nat) (h : d ≤ 99) : bcd_unpack (bcd_byte d) = d := by
  rw [bcd_byte_of_le d (by omega)]
  unfold bcd_unpack
  omega

/-- Witness of C8 at 99. -/
theorem bcd_unpack_bcd_byte_witness : (99 : Nat) ≤ 99 ∧ bcd_unpack (bcd_byte (99 : Nat)) = 99 :=
  ⟨by decide, bcd_unpack_bcd_byte 99 (by decide)⟩

/-- C9, the claim as stated fails: for 256 the code emits 6 where the rule of the
specification gives 150, and for -1 it emits 143 where the rule gives 255. -/
theorem bcd_byte_off_range :
    bcd_byte 256 = 6 ∧ to_uchar (bcd_pack_spec 256) = 150 ∧
    bcd_byte (-1) = 143 ∧ to_uchar (bcd_pack_spec (-1)) = 255 := by
  decide

/-- C9, amended: for every integer `d` from 0 to 255 (100 and above included) the byte
`write_sector` emits is `(d / 10) * 16 + (d % 10)` reduced to an unsigned 8-bit byte. -/
theorem bcd_byte_eq_spec (d : Int) (h0 : 0 ≤ d) (h1 : d ≤ 255) :
    bcd_byte d = to_uchar (bcd_pack_spec d) := by
  obtain ⟨n, rfl⟩ := Int.eq_ofNat_of_zero_le h0
  have hn : n % 256 = n := Nat.mod_eq_of_lt (by omega)
  rw [bcd_byte_natCast, hn]
  unfold bcd_pack_spec to_uchar
  rw [Int.tdiv_eq_ediv (by omega) (by omega), Int.tmod_eq_emod (by omega) (by omega)]
  omega

/-- Witness of C9 amended, at 255. -/
theorem bcd_byte_eq_spec_witness :
    (0 : Int) ≤ 255 ∧ (255 : Int) ≤ 255 ∧ bcd_byte 255 = to_uchar (bcd_pack_spec 255) :=
  ⟨by decide, by decide, bcd_byte_eq_spec 255 (by decide) (by decide)⟩

/-- C10: for every byte count `N` from 0 to the largest `int` and every prior content of the
target, when the file opens and the buffer is allocated (or `N` is 0) `write_null` leaves the
target holding exactly `N` bytes, all zero. -/
theorem write_null_zero_bytes (env : Env) (file : List Nat) (N : Nat)
    (hN : (N : Int) ≤ INT_MAX) (hwb : env.fopen_wb = true)
    (hc : N = 0 ∨ env.calloc N = true) :
    (write_null env file (N : Int)).file = List.replicate N 0 := by
  have hsz := to_size_t_natCast N hN
  by_cases hca : env.calloc N = true
  · rw [write_null_opened env file N hwb (by rw [hsz]; exact hca), hsz]
    rfl
  · have h0 : N = 0 := hc.resolve_right hca
    subst h0
    have hf : env.calloc (to_size_t ((0 : Nat) : Int)) = false := by
      rw [hsz]; simpa using hca
    simp only [write_null, hwb, hf, if_true, if_false, Bool.true_eq_false]
    rfl

/-- Witness of C10: four null bytes written over a three-byte file. -/
theorem write_null_zero_bytes_witness :
    ((4 : Nat) : Int) ≤ INT_MAX ∧ Env.ok.fopen_wb = true ∧
    (4 = 0 ∨ Env.ok.calloc 4 = true) ∧
    (write_null Env.ok [1, 2, 3] ((4 : Nat) : Int)).file = [0, 0, 0, 0] :=
  ⟨by decide, rfl, Or.inr rfl,
    write_null_zero_bytes Env.ok [1, 2, 3] 4 (by decide) rfl (Or.inr rfl)⟩


/-! ## Helper lemmas for the reader -/

theorem print_byte_eq (b : Nat) (h : b < 256) : print_byte b = render_spec b := by
  interval_cases b <;> rfl

theorem read_loop_in_bounds (file : List Nat) (k pos byte : Nat) (h : pos + k ≤ file.length) :
    read_loop file k pos byte = ((file.drop pos).take k).flatMap print_byte := by
  induction k generalizing pos byte with
  | zero => rfl
  | succ k ih =>
    have hpos : pos < file.length := by omega
    rw [read_loop, List.getElem?_eq_getElem hpos, List.drop_eq_getElem_cons hpos,
      List.take_succ_cons, List.flatMap_cons]
    simp only [Option.getD_some, if_pos hpos]
    rw [ih (pos + 1) _ (by omega)]

theorem length_read_loop (file : List Nat) (hfile : ∀ b ∈ file, b < 256) (k pos byte : Nat)
    (hbyte : byte < 256) : (read_loop file k pos byte).length = 3 * k := by
  induction k generalizing pos byte with
  | zero => rfl
  | succ k ih =>
    have hnext : (file[pos]?).getD byte < 256 := by
      cases hget : file[pos]? with
      | none => exact hbyte
      | some x => exact hfile x (List.getElem?_mem hget)
    rw [read_loop, List.length_append, ih _ _ hnext, print_byte_eq _ hnext]
    simp only [render_spec, List.length_cons, List.length_nil]
    omega

theorem length_flatMap_render (l : List Nat) : (l.flatMap render_spec).length = 3 * l.length := by
  induction l with
  | nil => rfl
  | cons x xs ih =>
    rw [List.flatMap_cons, List.length_append, ih]
    simp only [render_spec, List.length_cons, List.length_nil]
    omega

theorem flatMap_print_byte (l : List Nat) (h : ∀ b ∈ l, b < 256) :
    l.flatMap print_byte = l.flatMap render_spec := by
  induction l with
  | nil => rfl
  | cons x xs ih =>
    rw [List.flatMap_cons, List.flatMap_cons, print_byte_eq x (h x (List.mem_cons_self x xs)),
      ih (fun b hb => h b (List.mem_cons_of_mem x hb))]

/-- For a positive length and a non-negative skip whose sum is an `int`, `read_hex` ends with
status 2 and no output exactly when the sum exceeds the size of the file. -/
theorem read_hex_exit_iff (file : List Nat) (L S : Int) (hL : 0 < L) (hS : 0 ≤ S)
    (hsum : S + L ≤ INT_MAX) :
    read_hex true file L S = .exited 2 [] "not enough data to read\n"
      ↔ S + L > (file.length : Int) := by
  have hw : wrap_int (L + S) = S + L := by unfold wrap_int; unfold INT_MAX at hsum; omega
  unfold read_hex
  simp only [Bool.true_eq_false, if_false, hw]
  constructor
  · intro h
    by_contra hn
    rw [if_neg hn] at h
    exact ReadOutcome.noConfusion h
  · intro h
    rw [if_pos h]

theorem err_after (o : Outcome) : (Run.after o).err = "" := by
  cases o <;> rfl

theorem after_ne_usage (o : Outcome) (file : List Nat) : Run.after o ≠ ⟨1, usage_text, file⟩ := by
  intro h
  have h2 : "" = usage_text := by
    have h3 := congrArg Run.err h
    rwa [err_after] at h3
  exact absurd h2 (by decide)

/-! ## The claims on `write_null` with count 0, the reader, `main` and appending -/

/-- C11: `write_null` with count 0 on a library whose `calloc (0, 1)` answers `NULL` takes the
`exit (EXIT_FAILURE)` branch, the file being cut to length zero already; on a library that
answers a pointer it returns 0 and leaves a zero-length file. -/
theorem write_null_zero_count (file : List Nat) :
    write_null Env.null_on_zero file 0 = .exited EXIT_FAILURE [] ∧
    write_null Env.ok file 0 = .returned 0 [] := by
  constructor <;> rfl

/-- C12: on the ten-byte file 0, 1, ..., 9 the request (5, 3) succeeds and the request (5, 6)
ends with status 2 and no output; the request (2147483647, 1), whose sum 2147483648 exceeds
the size of the file, does not end with status 2: the `int` sum is negative, the call returns
0 and prints 2147483647 renderings although nine bytes follow the offset. -/
theorem read_hex_int_sum :
    read_hex true [0, 1, 2, 3, 4, 5, 6, 7, 8, 9] 5 3
      = .returned 0 (String.toList "03 04 05 06 07 \n") ∧
    read_hex true [0, 1, 2, 3, 4, 5, 6, 7, 8, 9] 5 6
      = .exited 2 [] "not enough data to read\n" ∧
    (1 : Int) + 2147483647 > (([0, 1, 2, 3, 4, 5, 6, 7, 8, 9] : List Nat).length : Int) ∧
    wrap_int (2147483647 + 1) = -2147483648 ∧
    ∃ out, read_hex true [0, 1, 2, 3, 4, 5, 6, 7, 8, 9] 2147483647 1 = .returned 0 out ∧
      out.length = 3 * 2147483647 + 1 := by
  refine ⟨by decide, by decide, by decide, by decide, ?_⟩
  refine ⟨read_loop [0, 1, 2, 3, 4, 5, 6, 7, 8, 9] (2147483647 : Int).toNat 1 0 ++ ['\n'],
    ?_, ?_⟩
  · unfold read_hex
    rw [if_neg (by decide), if_neg (by decide)]
    rfl
  · rw [List.length_append, length_read_loop _ (by decide) _ _ _ (by decide)]
    rfl

/-- C13: for an in-bounds request, `S + L` at most the size of a file of bytes, `read_hex`
returns 0 and its standard output is the renderings of the bytes at offsets `S` to
`S + L - 1` in that order, each two hexadecimal digits and a space, followed by one newline:
`3 * L + 1` characters. -/
theorem read_hex_in_bounds (file : List Nat) (L S : Nat) (hb : S + L ≤ file.length)
    (hfile : ∀ b ∈ file, b < 256) :
    read_hex true file L S
      = .returned 0 (((file.drop S).take L).flatMap render_spec ++ ['\n']) ∧
    (((file.drop S).take L).flatMap render_spec ++ ['\n']).length = 3 * L + 1 := by
  have hw : ¬ wrap_int ((L : Int) + S) > (file.length : Int) := by unfold wrap_int; omega
  constructor
  · unfold read_hex
    simp only [Bool.true_eq_false, if_false, if_neg hw, Int.toNat_ofNat,
      if_pos (Int.ofNat_nonneg S)]
    rw [read_loop_in_bounds file L S 0 hb, flatMap_print_byte]
    intro b hmem
    exact hfile b (List.mem_of_mem_drop (List.mem_of_mem_take hmem))
  · rw [List.length_append, length_flatMap_render, List.length_take, List.length_drop]
    simp only [List.length_cons, List.length_nil]
    omega

/-- Witness of C13: five bytes from offset 3 of a ten-byte file. -/
theorem read_hex_in_bounds_witness :
    3 + 5 ≤ ([0, 1, 2, 3, 4, 5, 6, 7, 8, 255] : List Nat).length ∧
    (∀ b ∈ ([0, 1, 2, 3, 4, 5, 6, 7, 8, 255] : List Nat), b < 256) ∧
    read_hex true [0, 1, 2, 3, 4, 5, 6, 7, 8, 255] (5 : Nat) (3 : Nat)
      = .returned 0 (String.toList "03 04 05 06 07 \n") ∧
    (String.toList "03 04 05 06 07 \n").length = 3 * 5 + 1 :=
  ⟨by decide, by decide,
    read_hex_in_bounds [0, 1, 2, 3, 4, 5, 6, 7, 8, 255] 5 3 (by decide) (by decide)⟩

/-- C14: `read_hex` renders a byte value `b` from 0 to 255 as three characters, the lowercase
hexadecimal digit of `b / 16`, that of `b % 16` and a space; 0 gives "00 ", 9 gives "09 " and
255 gives "ff ". -/
theorem print_byte_two_digits (b : Nat) (h : b < 256) :
    print_byte b = [hex_digit (b / 16), hex_digit (b % 16), ' '] ∧
    print_byte 0 = String.toList "00 " ∧
    print_byte 9 = String.toList "09 " ∧
    print_byte 255 = String.toList "ff " :=
  ⟨print_byte_eq b h, by decide, by decide, by decide⟩

/-- Witness of C14 at the byte 171, rendered "ab ". -/
theorem print_byte_two_digits_witness :
    171 < 256 ∧
    (print_byte 171 = [hex_digit (171 / 16), hex_digit (171 % 16), ' '] ∧
    print_byte 0 = String.toList "00 " ∧
    print_byte 9 = String.toList "09 " ∧
    print_byte 255 = String.toList "ff ") :=
  ⟨by decide, print_byte_two_digits 171 (by decide)⟩

/-- C15: for every argument vector, `main` prints the usage text and exits with status 1,
the file untouched and no library call consulted, exactly when the vector is none of: mode
"-a" with 3 arguments in all, mode "-d" with 6, mode "-n" with 4; in these three shapes it runs
`write_null (path, 352800)`, `write_pregap (path, mm, ss, ff)` and `write_null (path, size)`
on the `atoi` values of the arguments. -/
theorem main_usage_iff (env : Env) (atoi : String → Int) (argv : List String)
    (file : List Nat) :
    (main env atoi argv file = ⟨1, usage_text, file⟩ ↔
      ¬ ((argv[1]? = some "-a" ∧ argv.length = 3) ∨ (argv[1]? = some "-d" ∧ argv.length = 6)
        ∨ (argv[1]? = some "-n" ∧ argv.length = 4))) ∧
    (argv[1]? = some "-a" ∧ argv.length = 3 →
      main env atoi argv file = Run.after (write_null env file 352800)) ∧
    (argv[1]? = some "-d" ∧ argv.length = 6 →
      main env atoi argv file = Run.after (write_pregap env file (atoi (argv.getD 3 ""))
        (atoi (argv.getD 4 "")) (atoi (argv.getD 5 "")))) ∧
    (argv[1]? = some "-n" ∧ argv.length = 4 →
      main env atoi argv file = Run.after (write_null env file (atoi (argv.getD 3 "")))) := by
  rcases argv with _ | ⟨a0, _ | ⟨mode, _ | ⟨path, rest⟩⟩⟩
  · simp [main]
  · simp [main]
  · simp [main]
  · have hlen : ¬ (a0 :: mode :: path :: rest).length < 3 := by
      simp only [List.length_cons]; omega
    have hmode : (a0 :: mode :: path :: rest).getD 1 "" = mode := rfl
    have hget : (a0 :: mode :: path :: rest)[1]? = some mode := rfl
    unfold main
    simp only [hlen, if_false, hmode, hget, Option.some.injEq]
    generalize (a0 :: mode :: path :: rest).length = argc
    split_ifs with ha hd hn
    · exact ⟨⟨fun h => absurd h (after_ne_usage _ _), fun h => absurd (Or.inl ha) h⟩,
        fun _ => rfl, fun h => absurd h.2 (by have := ha.2; omega),
        fun h => absurd h.2 (by have := ha.2; omega)⟩
    · exact ⟨⟨fun h => absurd h (after_ne_usage _ _), fun h => absurd (Or.inr (Or.inl hd)) h⟩,
        fun h => absurd h ha, fun _ => rfl, fun h => absurd h.2 (by have := hd.2; omega)⟩
    · exact ⟨⟨fun h => absurd h (after_ne_usage _ _), fun h => absurd (Or.inr (Or.inr hn)) h⟩,
        fun h => absurd h ha, fun h => absurd h hd, fun _ => rfl⟩
    · exact ⟨⟨fun _ h => h.elim ha (fun h2 => h2.elim hd hn), fun _ => rfl⟩,
        fun h => absurd h ha, fun h => absurd h hd, fun h => absurd h hn⟩

/-- C16: `write_sector` only appends: whether or not the file opens, the bytes the file held
stay as they were; when it opens, the file afterwards is the prior content followed by the
sector bytes (those written to an empty file for the same timecode), 2352 bytes longer. -/
theorem write_sector_appends (opened : Bool) (c : List Nat) (bcd_min bcd_sec bcd_fra : Int) :
    (write_sector opened c bcd_min bcd_sec bcd_fra).file.take c.length = c ∧
    write_sector true c bcd_min bcd_sec bcd_fra
      = .returned 0 (c ++ (write_sector true [] bcd_min bcd_sec bcd_fra).file) ∧
    (write_sector true c bcd_min bcd_sec bcd_fra).file.length = c.length + 2352 := by
  have hfile : (write_sector true c bcd_min bcd_sec bcd_fra).file
      = c ++ sector_bytes ⟨bcd_min, bcd_sec, bcd_fra⟩ := by
    rw [write_sector_opened]; rfl
  refine ⟨?_, ?_, ?_⟩
  · cases opened with
    | false =>
      have hex : write_sector false c bcd_min bcd_sec bcd_fra = .exited EXIT_FAILURE c := rfl
      rw [hex]
      exact List.take_length c
    | true =>
      rw [hfile]
      exact List.take_left c _
  · rw [write_sector_opened, write_sector_opened]
    rfl
  · rw [hfile, List.length_append, length_sector_bytes]

/-! ## Helper lemmas for the span of a pregap -/

theorem frame_advance_min_le (t : Timecode) (h : t.bcd_min ≤ INT_MAX) :
    (frame_advance t).bcd_min ≤ INT_MAX := by
  have hw : wrap_int (t.bcd_min + 1) ≤ INT_MAX := by unfold wrap_int INT_MAX; omega
  unfold frame_advance
  dsimp only
  split_ifs <;> first | exact h | exact hw

theorem iterate_min_le (t : Timecode) (h : t.bcd_min ≤ INT_MAX) (n : Nat) :
    (frame_advance^[n] t).bcd_min ≤ INT_MAX := by
  induction n with
  | zero => exact h
  | succ n ih =>
    rw [Function.iterate_succ_apply']
    exact frame_advance_min_le _ ih

theorem pregap_sectors_getElem (k i j : Nat) (t : Timecode) (hi : i < k) (hj : j < 2352) :
    (pregap_sectors k t)[2352 * i + j]? = (sector_bytes (frame_advance^[i] t))[j]? := by
  rw [← pregap_sectors_slice i k t hi, List.getElem?_take_of_lt hj, List.getElem?_drop]

theorem append_pregap_getElem (z : List Nat) (k i j : Nat) (t : Timecode) (hi : i < k)
    (hj : j < 2352) :
    (z ++ pregap_sectors k t)[z.length + (2352 * i + j)]?
      = (sector_bytes (frame_advance^[i] t))[j]? := by
  rw [List.getElem?_append_right (Nat.le_add_right _ _), Nat.add_sub_cancel_left,
    pregap_sectors_getElem k i j t hi hj]

theorem write_pregap_getElem (i j : Nat) (t : Timecode) (hi : i < 150) (hj : j < 2352) :
    (List.replicate 176400 0 ++ pregap_sectors 150 t)[176400 + 2352 * i + j]?
      = (sector_bytes (frame_advance^[i] t))[j]? := by
  have hoff : 176400 + 2352 * i + j
      = (List.replicate 176400 (0 : Nat)).length + (2352 * i + j) := by
    rw [List.length_replicate]; omega
  rw [hoff]
  exact append_pregap_getElem _ 150 i j t hi hj

theorem bcd_byte_decimal (v : Int) (h0 : 0 ≤ v) (h1 : v ≤ 99) :
    bcd_byte v / 16 ≤ 9 ∧ bcd_byte v % 16 ≤ 9 ∧ (bcd_unpack (bcd_byte v) : Int) = v := by
  obtain ⟨n, rfl⟩ := Int.eq_ofNat_of_zero_le h0
  rw [bcd_byte_of_le n (by omega)]
  unfold bcd_unpack
  omega

/-! ## The claims on the span of a pregap -/

/-- C17, the claim as stated fails: 2147483647:58:00 is a valid origin, and advancing it 150
times cannot yield the minute 2147483648 the claim names, no `int` being that large. -/
theorem pregap_span_int_max :
    (⟨2147483647, 58, 0⟩ : Timecode).valid ∧
    frame_advance^[150] ⟨2147483647, 58, 0⟩
      ≠ ⟨2147483647 + (58 + 2) / 60, (58 + 2) % 60, 0⟩ := by
  refine ⟨by decide, fun h => ?_⟩
  have hle := iterate_min_le ⟨2147483647, 58, 0⟩ (by decide) 150
  rw [h] at hle
  exact absurd hle (by decide)

/-- C17, amended: for every valid origin (m, s, f) with m below the largest `int`, advancing
150 times yields (m + (s + 2) / 60, (s + 2) % 60, f); and when the library calls succeed the
last 2352 bytes of the pregap are the sector of the origin advanced 149 times. -/
theorem pregap_spans_two_seconds (env : Env) (file : List Nat) (t : Timecode)
    (hv : t.valid) (hm : t.bcd_min < INT_MAX)
    (hwb : env.fopen_wb = true) (hc : env.calloc 176400 = true)
    (hab : ∀ i, i < 150 → env.fopen_ab i = true) :
    frame_advance^[150] t
      = ⟨t.bcd_min + (t.bcd_sec + 2) / 60, (t.bcd_sec + 2) % 60, t.bcd_fra⟩ ∧
    ∃ out, write_pregap env file t.bcd_min t.bcd_sec t.bcd_fra = .returned 0 out ∧
      write_sector true [] (frame_advance^[149] t).bcd_min (frame_advance^[149] t).bcd_sec
          (frame_advance^[149] t).bcd_fra
        = .returned 0 (out.drop (out.length - 2352)) := by
  constructor
  · obtain ⟨hv150, hidx⟩ := frame_advance_iterate t hv hm 150 (by omega)
    generalize frame_advance^[150] t = u at hv150 hidx
    obtain ⟨um, us, uf⟩ := u
    obtain ⟨m, s, f⟩ := t
    simp only [Timecode.valid, abs_frame] at hv hv150 hidx
    dsimp only
    have h1 : um = m + (s + 2) / 60 := by omega
    have h2 : us = (s + 2) % 60 := by omega
    have h3 : uf = f := by omega
    rw [h1, h2, h3]
  · refine ⟨_, write_pregap_opened env file _ _ _ hwb hc hab, ?_⟩
    have hlen : (List.replicate 176400 (0 : Nat) ++ pregap_sectors 150 t).length - 2352
        = (List.replicate 176400 (0 : Nat)).length + 2352 * 149 := by
      rw [List.length_append, List.length_replicate, length_pregap_sectors]
    have htake : (pregap_sectors 150 t).drop (2352 * 149)
        = ((pregap_sectors 150 t).drop (2352 * 149)).take 2352 :=
      (List.take_of_length_le (by rw [List.length_drop, length_pregap_sectors])).symm
    rw [write_sector_opened, List.nil_append, hlen, List.drop_append, htake,
      pregap_sectors_slice 149 150 t (by omega)]

/-- Witness of C17 amended: the pregap from 12:59:30 ends two seconds later at 13:01:30. -/
theorem pregap_spans_two_seconds_witness :
    (⟨12, 59, 30⟩ : Timecode).valid ∧ (12 : Int) < INT_MAX ∧
    Env.ok.fopen_wb = true ∧ Env.ok.calloc 176400 = true ∧
    (∀ i, i < 150 → Env.ok.fopen_ab i = true) ∧
    frame_advance^[150] ⟨12, 59, 30⟩ = ⟨13, 1, 30⟩ ∧
    ∃ out, write_pregap Env.ok [] 12 59 30 = .returned 0 out ∧
      write_sector true [] (frame_advance^[149] ⟨12, 59, 30⟩).bcd_min
          (frame_advance^[149] ⟨12, 59, 30⟩).bcd_sec (frame_advance^[149] ⟨12, 59, 30⟩).bcd_fra
        = .returned 0 (out.drop (out.length - 2352)) :=
  ⟨by decide, by decide, rfl, rfl, fun _ _ => rfl,
    pregap_spans_two_seconds Env.ok [] ⟨12, 59, 30⟩ (by decide) (by decide) rfl rfl
      (fun _ _ => rfl)⟩

/-- C18, the claim as stated fails: from the valid timecode 2147483647:59:74 one step does
not raise the absolute frame index by 1, it makes it negative. -/
theorem abs_frame_int_max :
    (⟨2147483647, 59, 74⟩ : Timecode).valid ∧
    abs_frame (frame_advance ⟨2147483647, 59, 74⟩) ≠ abs_frame ⟨2147483647, 59, 74⟩ + 1 ∧
    abs_frame (frame_advance ⟨2147483647, 59, 74⟩) < 0 := by
  decide

/-- C18, amended: for every valid timecode whose minute is below the largest `int`, one
frame-advance step raises the absolute frame index `75 * (60 * m + s) + f` by exactly 1, and
the 150 timecodes of a pregap from such an origin are strictly increasing in that index,
hence pairwise distinct. -/
theorem abs_frame_advance (t : Timecode) (hv : t.valid) (hm : t.bcd_min < INT_MAX) :
    abs_frame (frame_advance t) = abs_frame t + 1 ∧
    ∀ i j, i < j → j < 150 →
      abs_frame (frame_advance^[i] t) < abs_frame (frame_advance^[j] t) ∧
      frame_advance^[i] t ≠ frame_advance^[j] t := by
  refine ⟨(frame_advance_step t hv (Or.inl hm)).2, fun i j hij hj => ?_⟩
  have hi := (frame_advance_iterate t hv hm i (by omega)).2
  have hj2 := (frame_advance_iterate t hv hm j (by omega)).2
  have hlt : abs_frame (frame_advance^[i] t) < abs_frame (frame_advance^[j] t) := by
    rw [hi, hj2]; omega
  exact ⟨hlt, fun heq => by rw [heq] at hlt; exact lt_irrefl _ hlt⟩

/-- Witness of C18 amended, at 2147483646:59:74. -/
theorem abs_frame_advance_witness :
    (⟨2147483646, 59, 74⟩ : Timecode).valid ∧ (2147483646 : Int) < INT_MAX ∧
    abs_frame (frame_advance ⟨2147483646, 59, 74⟩) = abs_frame ⟨2147483646, 59, 74⟩ + 1 ∧
    ∀ i j, i < j → j < 150 →
      abs_frame (frame_advance^[i] ⟨2147483646, 59, 74⟩)
        < abs_frame (frame_advance^[j] ⟨2147483646, 59, 74⟩) ∧
      frame_advance^[i] ⟨2147483646, 59, 74⟩ ≠ frame_advance^[j] ⟨2147483646, 59, 74⟩ :=
  ⟨by decide, by decide, abs_frame_advance ⟨2147483646, 59, 74⟩ (by decide) (by decide)⟩

/-- C19: for every valid origin with minute at most 98, when the library calls succeed each
of the 150 sectors of the pregap has at offsets 12, 13 and 14 bytes whose two nibbles are at
most 9 and which unpack to the minute, second and frame of the origin advanced `i` times;
from 99:59:74 the minute reaches 100, whose packed byte has the high nibble 10. -/
theorem pregap_timecode_bytes_decimal (env : Env) (file : List Nat) (t : Timecode)
    (hv : t.valid) (hm : t.bcd_min ≤ 98)
    (hwb : env.fopen_wb = true) (hc : env.calloc 176400 = true)
    (hab : ∀ i, i < 150 → env.fopen_ab i = true) :
    (∃ out, write_pregap env file t.bcd_min t.bcd_sec t.bcd_fra = .returned 0 out ∧
      ∀ i, i < 150 → ∃ bm bs bf,
        out[176400 + 2352 * i + 12]? = some bm ∧
        out[176400 + 2352 * i + 13]? = some bs ∧
        out[176400 + 2352 * i + 14]? = some bf ∧
        (bm / 16 ≤ 9 ∧ bm % 16 ≤ 9 ∧ (bcd_unpack bm : Int) = (frame_advance^[i] t).bcd_min) ∧
        (bs / 16 ≤ 9 ∧ bs % 16 ≤ 9 ∧ (bcd_unpack bs : Int) = (frame_advance^[i] t).bcd_sec) ∧
        (bf / 16 ≤ 9 ∧ bf % 16 ≤ 9 ∧ (bcd_unpack bf : Int) = (frame_advance^[i] t).bcd_fra)) ∧
    (frame_advance ⟨99, 59, 74⟩).bcd_min = 100 ∧ bcd_byte 100 / 16 = 10 := by
  refine ⟨⟨_, write_pregap_opened env file _ _ _ hwb hc hab, fun i hi => ?_⟩,
    by decide, by decide⟩
  obtain ⟨hvi, hidx⟩ := frame_advance_iterate t hv (by unfold INT_MAX; omega) i (by omega)
  obtain ⟨_, h12, h13, h14, _⟩ := sector_bytes_head (frame_advance^[i] t)
  have hmin : (frame_advance^[i] t).bcd_min ≤ 99 := by
    simp only [Timecode.valid, abs_frame] at hv hvi hidx
    omega
  simp only [Timecode.valid] at hvi
  refine ⟨_, _, _, ?_, ?_, ?_, bcd_byte_decimal _ hvi.1 hmin,
    bcd_byte_decimal _ hvi.2.1 (by omega), bcd_byte_decimal _ hvi.2.2.2.1 (by omega)⟩
  · rw [write_pregap_getElem i 12 _ hi (by omega)]; exact h12
  · rw [write_pregap_getElem i 13 _ hi (by omega)]; exact h13
  · rw [write_pregap_getElem i 14 _ hi (by omega)]; exact h14

/-- Witness of C19: the pregap from 98:59:74, whose later sectors carry minute 99. -/
theorem pregap_timecode_bytes_decimal_witness :
    (⟨98, 59, 74⟩ : Timecode).valid ∧ (98 : Int) ≤ 98 ∧
    Env.ok.fopen_wb = true ∧ Env.ok.calloc 176400 = true ∧
    (∀ i, i < 150 → Env.ok.fopen_ab i = true) ∧
    (∃ out, write_pregap Env.ok [] 98 59 74 = .returned 0 out ∧
      ∀ i, i < 150 → ∃ bm bs bf,
        out[176400 + 2352 * i + 12]? = some bm ∧
        out[176400 + 2352 * i + 13]? = some bs ∧
        out[176400 + 2352 * i + 14]? = some bf ∧
        (bm / 16 ≤ 9 ∧ bm % 16 ≤ 9 ∧
          (bcd_unpack bm : Int) = (frame_advance^[i] ⟨98, 59, 74⟩).bcd_min) ∧
        (bs / 16 ≤ 9 ∧ bs % 16 ≤ 9 ∧
          (bcd_unpack bs : Int) = (frame_advance^[i] ⟨98, 59, 74⟩).bcd_sec) ∧
        (bf / 16 ≤ 9 ∧ bf % 16 ≤ 9 ∧
          (bcd_unpack bf : Int) = (frame_advance^[i] ⟨98, 59, 74⟩).bcd_fra)) ∧
    (frame_advance ⟨99, 59, 74⟩).bcd_min = 100 ∧ bcd_byte 100 / 16 = 10 :=
  ⟨by decide, by decide, rfl, rfl, fun _ _ => rfl,
    pregap_timecode_bytes_decimal Env.ok [] ⟨98, 59, 74⟩ (by decide) (by decide) rfl rfl
      (fun _ _ => rfl)⟩

end Gdichk
